import Mathlib

/-!
Verification of the dmdr-cli schema-inspection tool.

The development shallowly embeds the program's data model (schema store,
models, fields, relations), the identity index over it, and the operations
`get_model_by`, `rebuild`, `dump_er_dot`, `write`, `enumerate`,
`show_model` / `show_meta_data`, together with the command dispatch of
`main`.  Pure Rust functions become Lean functions; the process-aborting
lookups of the index are rendered as `Option` / `Except` results; the
buffered output sink is an explicit state type.
-/

namespace Dmdr

/-- Source-location provenance attached to metadata (source file and line). -/
structure Code where
  source_file : String
  line_number : Nat
  deriving DecidableEq

/-- Identity plus provenance attached to a model or field: UUID and code location. -/
structure MetaData where
  uuid : String
  code : Code
  deriving DecidableEq

/-- A field of a model: a name plus attached metadata. -/
structure MyField where
  name : String
  _meta_data : MetaData
  deriving DecidableEq

/-- One schema entity: names, label, table, ordered fields, and metadata. -/
structure MyModel where
  model_name : String
  object_name : String
  app_label : String
  db_table : String
  fields : List MyField
  _meta_data : MetaData
  deriving DecidableEq

/-- Modelled from the spec: the relation kind is a closed enumerated tag set
(one-to-one / one-to-many / many-to-one / many-to-many categories); the
concrete Rust enum lives in the `dmdr_core` crate, absent from `src/`. -/
inductive RelationType where
  | OneToOne
  | OneToMany
  | ManyToOne
  | ManyToMany
  deriving DecidableEq

/-- Modelled from the spec: the renderer derives the edge label from the
relation kind with the derived debug formatter, which prints the bare
variant name (the spec scenario shows the label `ManyToOne`). -/
def relationTypeDebug : RelationType → String
  | .OneToOne => "OneToOne"
  | .OneToMany => "OneToMany"
  | .ManyToOne => "ManyToOne"
  | .ManyToMany => "ManyToMany"

/-- A directed, typed edge from a source field to a target model, stored
purely as identifiers. -/
structure Relation where
  src_field : String
  target_model : String
  relation_type : RelationType
  deriving DecidableEq

/-- The schema store: an ordered sequence of models and one of relations. -/
structure Structure where
  models : List MyModel
  relations : List Relation
  deriving DecidableEq

/-- The UUID identifying a model (its metadata UUID). -/
def uuidOf (m : MyModel) : String := m._meta_data.uuid

/-- Modelled from the spec: a lookup table insert that silently overwrites
any existing binding for the key (the spec flags the reference index's
silent-overwrite collision behavior). -/
def updateTable {β : Type} (t : String → Option β) (k : String) (v : β) :
    String → Option β :=
  fun q => if q = k then some v else t q

/-- Modelled from the spec: the identity index's three lookup tables —
UUID to model, display name to model, and field UUID to owning-model
UUID.  The concrete `UuidIndexes` type lives in `dmdr_core`, absent from
`src/`. -/
structure UuidIndexes where
  models : String → Option MyModel
  model_names : String → Option MyModel
  fields : String → Option String

/-- The empty index: every lookup misses. -/
def UuidIndexes.emptyIdx : UuidIndexes :=
  ⟨fun _ => none, fun _ => none, fun _ => none⟩

/-- Modelled from the spec: one step of index construction — insert the
model's UUID and display name, then every field's UUID mapped to the
owning model's UUID. -/
def insertModel (idx : UuidIndexes) (m : MyModel) : UuidIndexes :=
  let idx1 : UuidIndexes :=
    { idx with
        models := updateTable idx.models (uuidOf m) m,
        model_names := updateTable idx.model_names m.object_name m }
  m.fields.foldl
    (fun a f => { a with fields := updateTable a.fields f._meta_data.uuid (uuidOf m) })
    idx1

/-- Modelled from the spec: `build(store)` — a single pass over the models
(and their fields) inserting into the three tables, later insertions
silently overwriting earlier ones. -/
def UuidIndexes.new (data : Structure) : UuidIndexes :=
  data.models.foldl insertModel UuidIndexes.emptyIdx

/-- Modelled from the spec: O(1) membership check on the UUID table. -/
def UuidIndexes.has_model (idx : UuidIndexes) (u : String) : Bool :=
  (idx.models u).isSome

/-- Modelled from the spec: O(1) membership check on the display-name table. -/
def UuidIndexes.has_model_name (idx : UuidIndexes) (n : String) : Bool :=
  (idx.model_names n).isSome

/-- Modelled from the spec: UUID-table lookup; `none` models the not-found
condition on which the reference implementation aborts. -/
def UuidIndexes.get_model (idx : UuidIndexes) (u : String) : Option MyModel :=
  idx.models u

/-- Modelled from the spec: display-name-table lookup; `none` models the
not-found condition. -/
def UuidIndexes.get_model_by_name (idx : UuidIndexes) (n : String) : Option MyModel :=
  idx.model_names n

/-- Modelled from the spec: field-UUID-table lookup returning the owning
model's UUID; `none` models the not-found condition. -/
def UuidIndexes.get_model_from_field (idx : UuidIndexes) (f : String) : Option String :=
  idx.fields f

/-- Function `get_model_by` from `main.rs`: resolve a CLI string that may be a
display name or a UUID — name table first, then UUID table, else `none`. -/
def get_model_by (indexes : UuidIndexes) (model_name_or_uuid : String) :
    Option MyModel :=
  let specified_uuid := indexes.has_model model_name_or_uuid
  let specified_name := indexes.has_model_name model_name_or_uuid
  if specified_name then
    indexes.get_model_by_name model_name_or_uuid
  else if specified_uuid then
    indexes.get_model model_name_or_uuid
  else
    none

/-- Function `rebuild` from `main.rs`: look the focus model up in the index, keep it
as the sole model, keep exactly the relations whose `target_model` equals
the focus UUID, and build a fresh index over the new store.  `none` models
the abort of the index's `get_model` on a missing UUID. -/
def rebuild (data : Structure) (indexes : UuidIndexes) (model_uuid : String) :
    Option (Structure × UuidIndexes) :=
  match indexes.get_model model_uuid with
  | none => none
  | some model =>
    let new_models := [model]
    let new_relations := data.relations.filter (fun rel => rel.target_model == model_uuid)
    let new_data : Structure := { models := new_models, relations := new_relations }
    some (new_data, UuidIndexes.new new_data)

/-- A node statement of the DOT output: quoted UUID with a quoted label. -/
def nodeStmt (uuid label : String) : String :=
  "  \"" ++ uuid ++ "\" [label=\"" ++ label ++ "\"];\n"

/-- An edge statement of the DOT output: quoted source and target model
UUIDs with a quoted relation-kind label. -/
def edgeStmt (src dst lbl : String) : String :=
  "  \"" ++ src ++ "\" -> \"" ++ dst ++ "\" [label=\"" ++ lbl ++ "\"];\n"

/-- The edge statement produced for one relation, when the relation's
source field resolves in the index. -/
def edge_line (indexes : UuidIndexes) (rel : Relation) : Option String :=
  (indexes.get_model_from_field rel.src_field).map
    (fun src => edgeStmt src rel.target_model (relationTypeDebug rel.relation_type))

/-- The node-definition loop of `dump_er_dot`: append one node statement
per model to the accumulated text, skipping a model when a focus is
supplied and differs from the model's UUID (`continue`). -/
def nodeFold (target_model : Option String) (models : List MyModel)
    (dot : String) : String :=
  match models with
  | [] => dot
  | model :: rest =>
    let uuid := uuidOf model
    let dot :=
      match target_model with
      | some target =>
        if target = uuid then dot ++ nodeStmt uuid model.object_name else dot
      | none => dot ++ nodeStmt uuid model.object_name
    nodeFold target_model rest dot

/-- The edge-definition loop of `dump_er_dot`: append one edge statement
per relation, unconditionally; `none` models the abort when a relation's
source field is not in the index. -/
def edgeFold (indexes : UuidIndexes) (rels : List Relation) (dot : String) :
    Option String :=
  match rels with
  | [] => some dot
  | rel :: rest =>
    match edge_line indexes rel with
    | none => none
    | some e => edgeFold indexes rest (dot ++ e)

/-- Function `dump_er_dot` from `main.rs`: header, one node statement per model
(skipped when a focus is supplied and differs from the model's UUID),
one edge statement per relation (never filtered by the focus), then the
terminator.  `none` models the abort when a relation's source field is not
in the index. -/
def dump_er_dot (data : Structure) (indexes : UuidIndexes)
    (target_model : Option String) : Option String :=
  let dot := "digraph ER \x7b\n"
  let dot := nodeFold target_model data.models dot
  let edot := edgeFold indexes data.relations dot
  edot.map (fun d => d ++ "\x7d\n")

/-- The effect of one buffered-sink operation: the next sink state together
with a success flag (`false` models an I/O error result). -/
structure WriterOps (σ : Type) where
  write_all : σ → List Nat → σ × Bool
  flush : σ → σ × Bool

/-- Function `write` from `main.rs`: write all bytes, then flush, with both results
bound to `_` — the returned sink state is all that comes back; the success
flags are dropped on the floor. -/
def write {σ : Type} (ops : WriterOps σ) (sink : σ) (data : List Nat) : σ :=
  let r1 := ops.write_all sink data
  let r2 := ops.flush r1.fst
  r2.fst

/-- Function `enumerate` from `main.rs`: for each model in store order push a `[M]`
line (UUID-prefixed when requested), then one `[F]` line per field in
declaration order.  The index argument is only used for the vector's
capacity hint in the Rust code and does not affect the lines. -/
def enumerate (data : Structure) (_indexes : UuidIndexes) (show_uuid : Bool) :
    List String :=
  data.models.foldl
    (fun lines model =>
      let lines := lines ++
        [if show_uuid then
          "[M] " ++ uuidOf model ++ ": " ++ model.object_name
         else
          "[M] " ++ model.object_name]
      model.fields.foldl
        (fun lines field =>
          lines ++
            [if show_uuid then
              "[F] " ++ field._meta_data.uuid ++ ": " ++ field.name
             else
              "[F] " ++ field.name])
        lines)
    []

/-- The lines pushed by `show_meta_data` in `main.rs`: uuid, source file,
source line, then an empty separator line. -/
def show_meta_data_lines (meta_data : MetaData) : List String :=
  ["uuid: " ++ meta_data.uuid,
   "source file: " ++ meta_data.code.source_file,
   "source line: " ++ toString meta_data.code.line_number,
   ""]

/-- The lines pushed by `show_model` in `main.rs` before the optional
metadata block: five key/value lines and an empty separator line. -/
def show_model_lines (model : MyModel) : List String :=
  ["model name: " ++ model.model_name,
   "object name: " ++ model.object_name,
   "app label: " ++ model.app_label,
   "db table: " ++ model.db_table,
   "fields: " ++ toString model.fields.length,
   ""]

/-- Everything `show_model` emits: its own lines, followed by the
`show_meta_data` lines exactly when metadata display is requested. -/
def show_model_emitted (model : MyModel) (show_meta : Bool) : List String :=
  show_model_lines model ++
    (if show_meta then show_meta_data_lines model._meta_data else [])

/-- The `Enumerate` arm of `main`: with a focus argument, resolve it via
`get_model_by` — on no match the Rust code panics with
`no match {model} in models`, rendered here as `Except.error` — then
narrow the store with `rebuild` and list it; without a focus argument,
list the full store. -/
def run_enumerate (data : Structure) (indexes : UuidIndexes) (uuid : Bool)
    (model : Option String) : Except String (List String) :=
  match model with
  | some m =>
    match get_model_by indexes m with
    | some mdl =>
      match rebuild data indexes (uuidOf mdl) with
      | some (d, idx) => .ok (enumerate d idx uuid)
      | none => .error ("model not found: " ++ uuidOf mdl)
    | none => .error ("no match " ++ m ++ " in models")
  | none => .ok (enumerate data indexes uuid)

/-- The `Get` arm of `main`: resolve the required focus argument via
`get_model_by` and report the model; on no match the Rust code panics with
`no match {model} in models`, rendered here as `Except.error`. -/
def run_get (indexes : UuidIndexes) (model : String) (show_meta : Bool) :
    Except String (List String) :=
  match get_model_by indexes model with
  | some mdl => .ok (show_model_emitted mdl show_meta)
  | none => .error ("no match " ++ model ++ " in models")

/-! ## Spec-side helpers -/

/-- Map a fallible function over a list, failing as soon as one element
fails (the pure counterpart of the renderer's per-relation lookup loop). -/
def mapOpt {α β : Type} (f : α → Option β) : List α → Option (List β)
  | [] => some []
  | x :: xs =>
    match f x with
    | none => none
    | some y => (mapOpt f xs).map (fun ys => y :: ys)

/-- Concatenation of a list of strings. -/
def joinAll : List String → String
  | [] => ""
  | s :: rest => s ++ joinAll rest

/-- The strings of a list joined with single newline separators: the
formal reading of "one item per line". -/
def interNL : List String → String
  | [] => ""
  | [s] => s
  | s :: rest => s ++ "\n" ++ interNL rest

/-- Returns `true` when the string contains no newline character. -/
def noNL (s : String) : Bool := s.data.all (fun c => !(c == '\n'))

/-- The model line of the enumeration listing, as the spec words it:
`[M] <name>`, or `[M] <uuid>: <name>` when UUID display is requested. -/
def modelLine (show_uuid : Bool) (m : MyModel) : String :=
  if show_uuid then "[M] " ++ uuidOf m ++ ": " ++ m.object_name
  else "[M] " ++ m.object_name

/-- The field line of the enumeration listing, as the spec words it:
`[F] <name>`, or `[F] <uuid>: <name>` when UUID display is requested. -/
def fieldLine (show_uuid : Bool) (f : MyField) : String :=
  if show_uuid then "[F] " ++ f._meta_data.uuid ++ ": " ++ f.name
  else "[F] " ++ f.name

/-- Whether a node statement is emitted for a model under an optional
focus: with a focus, only when the focus equals the model's UUID. -/
def keepNode (target_model : Option String) (m : MyModel) : Bool :=
  match target_model with
  | some target => target == uuidOf m
  | none => true

/-! ## Index construction lemmas -/

theorem updateTable_eq {β : Type} (t : String → Option β) (k : String) (v : β)
    (q : String) :
    updateTable t k v q = if q = k then some v else t q := rfl

theorem fieldsFold_models (mu : String) (fs : List MyField) (A : UuidIndexes) :
    (fs.foldl
      (fun a f => { a with fields := updateTable a.fields f._meta_data.uuid mu })
      A).models = A.models := by
  induction fs generalizing A with
  | nil => rfl
  | cons f fs ih => exact ih _

theorem fieldsFold_model_names (mu : String) (fs : List MyField) (A : UuidIndexes) :
    (fs.foldl
      (fun a f => { a with fields := updateTable a.fields f._meta_data.uuid mu })
      A).model_names = A.model_names := by
  induction fs generalizing A with
  | nil => rfl
  | cons f fs ih => exact ih _

theorem insertModel_models (idx : UuidIndexes) (m : MyModel) :
    (insertModel idx m).models = updateTable idx.models (uuidOf m) m := by
  simp only [insertModel]
  rw [fieldsFold_models]

theorem insertModel_model_names (idx : UuidIndexes) (m : MyModel) :
    (insertModel idx m).model_names = updateTable idx.model_names m.object_name m := by
  simp only [insertModel]
  rw [fieldsFold_model_names]

theorem foldl_insertModel_models_miss (l : List MyModel) (acc : UuidIndexes)
    (u : String) (h : ∀ m ∈ l, uuidOf m ≠ u) :
    (l.foldl insertModel acc).models u = acc.models u := by
  induction l generalizing acc with
  | nil => rfl
  | cons x xs ih =>
    rw [List.foldl_cons, ih _ (fun m hm => h m (List.mem_cons_of_mem _ hm))]
    rw [insertModel_models, updateTable_eq]
    have : u ≠ uuidOf x := fun he => h x (List.mem_cons_self _ _) he.symm
    simp [this]

theorem foldl_insertModel_models_hit (l : List MyModel) (acc : UuidIndexes)
    (u : String) (m : MyModel) (hm : m ∈ l) (hu : uuidOf m = u)
    (hnd : (l.map uuidOf).Nodup) :
    (l.foldl insertModel acc).models u = some m := by
  induction l generalizing acc with
  | nil => cases hm
  | cons x xs ih =>
    rw [List.map_cons, List.nodup_cons] at hnd
    rcases List.mem_cons.mp hm with rfl | hmem
    · rw [List.foldl_cons]
      have hmiss : ∀ y ∈ xs, uuidOf y ≠ u := by
        intro y hy hyu
        apply hnd.1
        rw [hu, ← hyu]
        exact List.mem_map_of_mem uuidOf hy
      rw [foldl_insertModel_models_miss xs _ u hmiss]
      rw [insertModel_models, updateTable_eq]
      simp [hu]
    · rw [List.foldl_cons]
      exact ih _ hmem hnd.2

theorem foldl_insertModel_models_sound (l : List MyModel) (acc : UuidIndexes)
    (u : String) (m : MyModel)
    (h : (l.foldl insertModel acc).models u = some m) :
    (m ∈ l ∧ uuidOf m = u) ∨ acc.models u = some m := by
  induction l generalizing acc with
  | nil => exact Or.inr h
  | cons x xs ih =>
    rw [List.foldl_cons] at h
    rcases ih _ h with ⟨hmem, hu⟩ | hacc
    · exact Or.inl ⟨List.mem_cons_of_mem _ hmem, hu⟩
    · rw [insertModel_models, updateTable_eq] at hacc
      by_cases hq : u = uuidOf x
      · rw [if_pos hq] at hacc
        exact Or.inl ⟨by simp [← Option.some_inj.mp hacc], (Option.some_inj.mp hacc ▸ hq).symm⟩
      · exact Or.inr (by rwa [if_neg hq] at hacc)

theorem new_models_sound (S : Structure) (u : String) (m : MyModel)
    (h : (UuidIndexes.new S).models u = some m) :
    m ∈ S.models ∧ uuidOf m = u := by
  rcases foldl_insertModel_models_sound S.models UuidIndexes.emptyIdx u m h with
    hok | habs
  · exact hok
  · cases habs

theorem new_models_complete (S : Structure) (m : MyModel) (hm : m ∈ S.models)
    (hnd : (S.models.map uuidOf).Nodup) :
    (UuidIndexes.new S).models (uuidOf m) = some m :=
  foldl_insertModel_models_hit S.models UuidIndexes.emptyIdx (uuidOf m) m hm rfl hnd

/-- Filtering a list on a key that occurs exactly once picks out that
single element. -/
theorem filter_key_singleton {α : Type} [DecidableEq α] (f : α → String)
    (l : List α) (m : α) (u : String) (hm : m ∈ l) (hu : f m = u)
    (hnd : (l.map f).Nodup) :
    l.filter (fun x => f x == u) = [m] := by
  induction l with
  | nil => cases hm
  | cons x xs ih =>
    rw [List.map_cons, List.nodup_cons] at hnd
    rcases List.mem_cons.mp hm with rfl | hmem
    · have hxs : xs.filter (fun x => f x == u) = [] := by
        rw [List.filter_eq_nil_iff]
        intro a ha hfa
        apply hnd.1
        rw [hu, ← eq_of_beq hfa]
        exact List.mem_map_of_mem f ha
      simp [List.filter_cons, hu, hxs]
    · have hx : (f x == u) = false := by
        rcases hbe : (f x == u) with _ | _
        · rfl
        · exact absurd (by rw [eq_of_beq hbe, ← hu]; exact List.mem_map_of_mem f hmem)
            hnd.1
      simp [List.filter_cons, hx, ih hmem hnd.2]

/-! ## Rebuild characterization -/

theorem rebuild_eq_some (data : Structure) (indexes : UuidIndexes) (u : String)
    (m : MyModel) (h : indexes.get_model u = some m) :
    rebuild data indexes u =
      some (⟨[m], data.relations.filter (fun rel => rel.target_model == u)⟩,
        UuidIndexes.new
          ⟨[m], data.relations.filter (fun rel => rel.target_model == u)⟩) := by
  simp [rebuild, h]

theorem rebuild_some_inv (data : Structure) (indexes : UuidIndexes) (u : String)
    (S' : Structure) (I' : UuidIndexes)
    (h : rebuild data indexes u = some (S', I')) :
    ∃ m, indexes.get_model u = some m ∧
      S' = ⟨[m], data.relations.filter (fun rel => rel.target_model == u)⟩ ∧
      I' = UuidIndexes.new S' := by
  cases hg : indexes.get_model u with
  | none => simp [rebuild, hg] at h
  | some m =>
    simp only [rebuild, hg, Option.some_inj] at h
    rw [Prod.mk.injEq] at h
    exact ⟨m, rfl, h.1.symm, by rw [← h.1, ← h.2]⟩

/-! ## Enumeration characterization -/

theorem foldl_push {α : Type} (g : α → String) (l : List α) (acc : List String) :
    l.foldl (fun lines x => lines ++ [g x]) acc = acc ++ l.map g := by
  induction l generalizing acc with
  | nil => simp
  | cons x xs ih => simp [ih, List.append_assoc]

theorem enumerate_fold (b : Bool) (l : List MyModel) (acc : List String) :
    l.foldl
      (fun lines model =>
        let lines := lines ++
          [if b then "[M] " ++ uuidOf model ++ ": " ++ model.object_name
           else "[M] " ++ model.object_name]
        model.fields.foldl
          (fun lines field =>
            lines ++
              [if b then "[F] " ++ field._meta_data.uuid ++ ": " ++ field.name
               else "[F] " ++ field.name])
          lines)
      acc
    = acc ++ l.flatMap (fun m => modelLine b m :: m.fields.map (fieldLine b)) := by
  induction l generalizing acc with
  | nil => simp
  | cons m ms ih =>
    rw [List.foldl_cons]
    dsimp only
    rw [foldl_push, ih]
    simp [modelLine, fieldLine, List.append_assoc]

/-! ## mapOpt lemmas -/

theorem mapOpt_length {α β : Type} (f : α → Option β) (l : List α) (es : List β)
    (h : mapOpt f l = some es) : es.length = l.length := by
  induction l generalizing es with
  | nil =>
    simp only [mapOpt, Option.some_inj] at h
    simp [← h]
  | cons x xs ih =>
    simp only [mapOpt] at h
    cases hx : f x with
    | none => rw [hx] at h; cases h
    | some y =>
      rw [hx] at h
      cases hm : mapOpt f xs with
      | none => rw [hm] at h; cases h
      | some ys =>
        rw [hm] at h
        have h' : y :: ys = es := Option.some_inj.mp h
        rw [← h']
        simp [ih ys hm]

theorem mapOpt_mem {α β : Type} (f : α → Option β) (l : List α) (es : List β)
    (h : mapOpt f l = some es) (b : β) (hb : b ∈ es) :
    ∃ x ∈ l, f x = some b := by
  induction l generalizing es with
  | nil =>
    simp only [mapOpt, Option.some_inj] at h
    rw [← h] at hb
    cases hb
  | cons x xs ih =>
    simp only [mapOpt] at h
    cases hx : f x with
    | none => rw [hx] at h; cases h
    | some y =>
      rw [hx] at h
      cases hm : mapOpt f xs with
      | none => rw [hm] at h; cases h
      | some ys =>
        rw [hm] at h
        have h' : y :: ys = es := Option.some_inj.mp h
        rw [← h'] at hb
        rcases List.mem_cons.mp hb with rfl | hmem
        · exact ⟨x, List.mem_cons_self _ _, hx⟩
        · obtain ⟨z, hz, hfz⟩ := ih ys hm hmem
          exact ⟨z, List.mem_cons_of_mem _ hz, hfz⟩

/-! ## Renderer characterization -/

theorem edgeFold_eq (indexes : UuidIndexes) (rels : List Relation) (acc : String) :
    edgeFold indexes rels acc
      = (mapOpt (edge_line indexes) rels).map (fun es => acc ++ joinAll es) := by
  induction rels generalizing acc with
  | nil => simp [edgeFold, mapOpt, joinAll, String.append_empty]
  | cons r rs ih =>
    cases hr : edge_line indexes r with
    | none => simp [edgeFold, hr, mapOpt]
    | some e =>
      rw [show edgeFold indexes (r :: rs) acc = edgeFold indexes rs (acc ++ e) by
        simp [edgeFold, hr]]
      rw [ih]
      simp only [mapOpt, hr]
      cases hm : mapOpt (edge_line indexes) rs with
      | none => rfl
      | some es => simp [joinAll, String.append_assoc]

theorem nodeFold_eq (tm : Option String) (l : List MyModel) (acc : String) :
    nodeFold tm l acc
      = acc ++
        joinAll ((l.filter (keepNode tm)).map
          (fun m => nodeStmt (uuidOf m) m.object_name)) := by
  induction l generalizing acc with
  | nil => simp [nodeFold, joinAll, String.append_empty]
  | cons m ms ih =>
    cases tm with
    | none =>
      rw [show nodeFold none (m :: ms) acc
          = nodeFold none ms (acc ++ nodeStmt (uuidOf m) m.object_name) from rfl]
      rw [ih]
      simp [keepNode, List.filter_cons, joinAll, String.append_assoc]
    | some t =>
      by_cases ht : t = uuidOf m
      · rw [show nodeFold (some t) (m :: ms) acc
            = nodeFold (some t) ms (acc ++ nodeStmt (uuidOf m) m.object_name) by
          simp [nodeFold, ht]]
        rw [ih]
        have hb : keepNode (some t) m = true := by simp [keepNode, ht]
        simp [List.filter_cons, hb, joinAll, String.append_assoc]
      · rw [show nodeFold (some t) (m :: ms) acc = nodeFold (some t) ms acc by
          simp [nodeFold, ht]]
        rw [ih]
        have hb : keepNode (some t) m = false := by
          simp [keepNode]
          exact ht
        simp [List.filter_cons, hb]

theorem dump_er_dot_eq (data : Structure) (indexes : UuidIndexes) (tm : Option String) :
    dump_er_dot data indexes tm =
      (mapOpt (edge_line indexes) data.relations).map (fun es =>
        "digraph ER \x7b\n" ++
        joinAll ((data.models.filter (keepNode tm)).map
          (fun m => nodeStmt (uuidOf m) m.object_name)) ++
        joinAll es ++ "\x7d\n") := by
  simp only [dump_er_dot]
  rw [nodeFold_eq, edgeFold_eq]
  cases hm : mapOpt (edge_line indexes) data.relations with
  | none => rfl
  | some es => simp [String.append_assoc]

/-! ## String-level lemmas for the output format -/

/-- The unterminated body of a node statement (everything before the
newline). -/
def nodeBody (uuid label : String) : String :=
  "  \"" ++ uuid ++ "\" [label=\"" ++ label ++ "\"];"

/-- The unterminated body of an edge statement (everything before the
newline). -/
def edgeBody (src dst lbl : String) : String :=
  "  \"" ++ src ++ "\" -> \"" ++ dst ++ "\" [label=\"" ++ lbl ++ "\"];"

theorem str_empty_append (s : String) : "" ++ s = s := by
  cases s
  rfl

theorem nodeStmt_eq_body (uuid label : String) :
    nodeStmt uuid label = nodeBody uuid label ++ "\n" := by
  show _ = (("  \"" ++ uuid ++ "\" [label=\"" ++ label) ++ "\"];") ++ "\n"
  rw [String.append_assoc]
  rfl

theorem edgeStmt_eq_body (src dst lbl : String) :
    edgeStmt src dst lbl = edgeBody src dst lbl ++ "\n" := by
  show _ = (("  \"" ++ src ++ "\" -> \"" ++ dst ++ "\" [label=\"" ++ lbl) ++ "\"];") ++ "\n"
  rw [String.append_assoc]
  rfl

theorem noNL_append (a b : String) : noNL (a ++ b) = (noNL a && noNL b) := by
  simp [noNL, String.data_append, List.all_append]

theorem count_nl_append (a b : String) :
    (a ++ b).data.count '\n' = a.data.count '\n' + b.data.count '\n' := by
  simp [String.data_append, List.count_append]

theorem noNL_count_zero (s : String) (h : noNL s = true) :
    s.data.count '\n' = 0 := by
  rw [List.count_eq_zero]
  intro hmem
  have := List.all_eq_true.mp h '\n' hmem
  simp at this

theorem joinAll_append (a b : List String) :
    joinAll (a ++ b) = joinAll a ++ joinAll b := by
  induction a with
  | nil => simp [joinAll, str_empty_append]
  | cons x xs ih => simp [joinAll, ih, String.append_assoc]

theorem interNL_cons_cons (a b : String) (l : List String) :
    interNL (a :: b :: l) = a ++ "\n" ++ interNL (b :: l) := rfl

theorem interNL_header (hd t : String) (bodies : List String) :
    interNL (hd :: (bodies ++ [t, ""]))
      = hd ++ "\n" ++ (joinAll (bodies.map (fun b => b ++ "\n")) ++ (t ++ "\n")) := by
  induction bodies generalizing hd with
  | nil =>
    rw [List.nil_append, interNL_cons_cons, interNL_cons_cons]
    show hd ++ "\n" ++ (t ++ "\n" ++ "") = _
    simp [joinAll, String.append_empty, str_empty_append, String.append_assoc]
  | cons x xs ih =>
    rw [List.cons_append, interNL_cons_cons, ih]
    simp [joinAll, String.append_assoc]

/-- Lift a pointwise statement-shape fact on a list of emitted statements
to an explicit list of newline-free bodies. -/
theorem stmts_to_bodies {Q : String → Prop} (es : List String)
    (h : ∀ e ∈ es, ∃ b, e = b ++ "\n" ∧ Q b) :
    ∃ bs : List String, es = bs.map (fun b => b ++ "\n") ∧ ∀ b ∈ bs, Q b := by
  induction es with
  | nil => exact ⟨[], rfl, by intro b hb; cases hb⟩
  | cons e es ih =>
    obtain ⟨b, hb, hQ⟩ := h e (List.mem_cons_self _ _)
    obtain ⟨bs, hbs, hQs⟩ := ih (fun e' he' => h e' (List.mem_cons_of_mem _ he'))
    refine ⟨b :: bs, by simp [hb, hbs], ?_⟩
    intro b' hb'
    rcases List.mem_cons.mp hb' with rfl | hmem
    · exact hQ
    · exact hQs b' hmem

/-! ## Concrete example data (for witnesses) -/

/-- A fixed provenance record for the example data. -/
def exCode : Code := ⟨"models.py", 1⟩

/-- Example field `f1` with UUID `10`, owned by model `A`. -/
def exField1 : MyField := ⟨"f1", ⟨"10", exCode⟩⟩

/-- Example model `A` with UUID `1` and one field. -/
def exModelA : MyModel := ⟨"a", "A", "app", "tbl_a", [exField1], ⟨"1", exCode⟩⟩

/-- Example model `B` with UUID `2` and no fields. -/
def exModelB : MyModel := ⟨"b", "B", "app", "tbl_b", [], ⟨"2", exCode⟩⟩

/-- Example relation: field `10` (on `A`) points at model `2` (`B`). -/
def exRel : Relation := ⟨"10", "2", RelationType.ManyToOne⟩

/-- The scenario store of the spec: models `A`, `B` and one relation. -/
def exStore : Structure := ⟨[exModelA, exModelB], [exRel]⟩

/-- A model whose display name `x` lexically collides with another
model's UUID. -/
def colModelA : MyModel := ⟨"a", "x", "app", "t", [], ⟨"1", exCode⟩⟩

/-- A model whose UUID is the string `x`. -/
def colModelB : MyModel := ⟨"b", "B", "app", "t", [], ⟨"x", exCode⟩⟩

/-- A store in which the string `x` is both a display name and a UUID. -/
def colStore : Structure := ⟨[colModelA, colModelB], []⟩

/-- A model whose UUID contains a newline character. -/
def dirtyModel : MyModel := ⟨"a", "A", "app", "t", [], ⟨"a\nb", exCode⟩⟩

/-- A store holding only the newline-polluted model. -/
def dirtyStore : Structure := ⟨[dirtyModel], []⟩

/-- The renderer's output on `dirtyStore`: the single node statement spans
two lines. -/
def dirtyOut : String := "digraph ER \x7b\n  \"a\nb\" [label=\"A\"];\n\x7d\n"

/-- The renderer's output on `exStore` with focus `1`. -/
def exDotFocus : String :=
  "digraph ER \x7b\n  \"1\" [label=\"A\"];\n  \"1\" -> \"2\" [label=\"ManyToOne\"];\n\x7d\n"

/-- The renderer's output on `exStore` without a focus. -/
def exDotFull : String :=
  "digraph ER \x7b\n  \"1\" [label=\"A\"];\n  \"2\" [label=\"B\"];\n  \"1\" -> \"2\" [label=\"ManyToOne\"];\n\x7d\n"

/-- A sink whose operations always succeed (state counts bytes written). -/
def okOps : WriterOps Nat := ⟨fun s d => (s + d.length, true), fun s => (s, true)⟩

/-- A sink whose operations have the same state effect but always report
failure. -/
def failOps : WriterOps Nat := ⟨fun s d => (s + d.length, false), fun s => (s, false)⟩

/-! ## Claims -/

/-- C1: over a store `S` with pairwise-distinct model UUIDs and the index
built over `S`, if the focus UUID `u` is present in the index (resolving
to `m`), then `rebuild` returns a store whose relation sequence is exactly
the relations of `S` with `target_model == u` and whose model sequence is
exactly the single model of `S` whose metadata UUID equals `u`. -/
theorem rebuild_extracts (S : Structure) (u : String) (m : MyModel)
    (huniq : (S.models.map uuidOf).Nodup)
    (hm : (UuidIndexes.new S).get_model u = some m) :
    rebuild S (UuidIndexes.new S) u =
      some (⟨[m], S.relations.filter (fun rel => rel.target_model == u)⟩,
        UuidIndexes.new ⟨[m], S.relations.filter (fun rel => rel.target_model == u)⟩) ∧
    S.models.filter (fun x => uuidOf x == u) = [m] := by
  have hsound := new_models_sound S u m hm
  exact ⟨rebuild_eq_some S (UuidIndexes.new S) u m hm,
    filter_key_singleton uuidOf S.models m u hsound.1 hsound.2 huniq⟩

/-- Witness for C1: on the scenario store, extracting around UUID `2`
yields exactly model `B` and the single relation targeting `2`. -/
theorem rebuild_extracts_witness :
    rebuild exStore (UuidIndexes.new exStore) "2" =
      some (⟨[exModelB], exStore.relations.filter (fun rel => rel.target_model == "2")⟩,
        UuidIndexes.new
          ⟨[exModelB], exStore.relations.filter (fun rel => rel.target_model == "2")⟩) ∧
    exStore.models.filter (fun x => uuidOf x == "2") = [exModelB] :=
  rebuild_extracts exStore "2" exModelB (by decide) rfl

/-- C2: `get_model_by` checks the display-name table first and returns its
model when present, falls back to the UUID table otherwise, and returns
`none` when the string is in neither table; a string present in both
tables therefore resolves as a name. -/
theorem get_model_by_resolution (idx : UuidIndexes) (s : String) :
    (∀ m, idx.get_model_by_name s = some m → get_model_by idx s = some m) ∧
    (∀ m, idx.get_model_by_name s = none → idx.get_model s = some m →
      get_model_by idx s = some m) ∧
    (idx.get_model_by_name s = none → idx.get_model s = none →
      get_model_by idx s = none) := by
  refine ⟨?_, ?_, ?_⟩ <;> intros <;>
    simp_all [get_model_by, UuidIndexes.has_model, UuidIndexes.has_model_name,
      UuidIndexes.get_model, UuidIndexes.get_model_by_name]

/-- Witness for C2: in a store where the string `x` is both a display name
(of `colModelA`) and a UUID (of `colModelB`), resolution yields the model
named `x`. -/
theorem get_model_by_resolution_witness :
    get_model_by (UuidIndexes.new colStore) "x" = some colModelA :=
  (get_model_by_resolution (UuidIndexes.new colStore) "x").1 colModelA rfl

/-- C4: extracting around `u` and then extracting around `u` again from
the resulting (store, index) pair yields a store with the same single
model and the same relation sequence as the first extraction. -/
theorem rebuild_idempotent (S : Structure) (u : String) (m : MyModel)
    (hm : (UuidIndexes.new S).get_model u = some m) :
    ∃ S1 I1 S2 I2,
      rebuild S (UuidIndexes.new S) u = some (S1, I1) ∧
      rebuild S1 I1 u = some (S2, I2) ∧
      S2.models = S1.models ∧ S2.relations = S1.relations := by
  obtain ⟨hmem, hu⟩ := new_models_sound S u m hm
  have h1 := rebuild_eq_some S (UuidIndexes.new S) u m hm
  have hlook : (UuidIndexes.new
      (⟨[m], S.relations.filter (fun rel => rel.target_model == u)⟩ : Structure)).get_model u
      = some m := by
    show (UuidIndexes.new _).models u = some m
    rw [← hu]
    exact new_models_complete _ m (by simp) (by simp)
  have h2 := rebuild_eq_some
    (⟨[m], S.relations.filter (fun rel => rel.target_model == u)⟩ : Structure)
    (UuidIndexes.new
      (⟨[m], S.relations.filter (fun rel => rel.target_model == u)⟩ : Structure))
    u m hlook
  refine ⟨_, _, _, _, h1, h2, rfl, ?_⟩
  show (S.relations.filter (fun rel => rel.target_model == u)).filter
    (fun rel => rel.target_model == u) = S.relations.filter (fun rel => rel.target_model == u)
  simp [List.filter_filter]

/-- Witness for C4: on the scenario store, a second extraction around
UUID `2` reproduces the first extraction's model and relation lists. -/
theorem rebuild_idempotent_witness :
    ∃ S1 I1 S2 I2,
      rebuild exStore (UuidIndexes.new exStore) "2" = some (S1, I1) ∧
      rebuild S1 I1 "2" = some (S2, I2) ∧
      S2.models = S1.models ∧ S2.relations = S1.relations :=
  rebuild_idempotent exStore "2" exModelB rfl

/-- C10: whenever `rebuild` succeeds, the relations of the extracted store
are exactly the order-preserving filter of the original relation sequence
on `target_model == u` — in particular a sublist of the original, never a
re-sorting. -/
theorem rebuild_preserves_order (data : Structure) (idx : UuidIndexes) (u : String)
    (S' : Structure) (I' : UuidIndexes) (h : rebuild data idx u = some (S', I')) :
    S'.relations = data.relations.filter (fun rel => rel.target_model == u) ∧
    List.Sublist S'.relations data.relations := by
  obtain ⟨m, hg, hS, hI⟩ := rebuild_some_inv data idx u S' I' h
  subst hS
  exact ⟨rfl, List.filter_sublist _⟩

/-- Witness for C10: on the scenario store, the extracted relations form a
sublist of the original relation sequence. -/
theorem rebuild_preserves_order_witness :
    (⟨[exModelB], exStore.relations.filter (fun rel => rel.target_model == "2")⟩ :
        Structure).relations
      = exStore.relations.filter (fun rel => rel.target_model == "2") ∧
    List.Sublist
      (⟨[exModelB], exStore.relations.filter (fun rel => rel.target_model == "2")⟩ :
        Structure).relations
      exStore.relations :=
  rebuild_preserves_order exStore (UuidIndexes.new exStore) "2" _ _
    (rebuild_eq_some exStore (UuidIndexes.new exStore) "2" exModelB rfl)

/-- C6: enumeration produces, in store order, one model line per model
(`[M] <name>`, or `[M] <uuid>: <name>` with UUID display) immediately
followed by one field line per field of that model in declaration order
(`[F] <name>`, or `[F] <uuid>: <name>` with UUID display). -/
theorem enumerate_lists_models_then_fields (data : Structure) (idx : UuidIndexes)
    (b : Bool) :
    enumerate data idx b
      = data.models.flatMap (fun m => modelLine b m :: m.fields.map (fieldLine b)) := by
  unfold enumerate
  rw [enumerate_fold]
  simp

/-- C7: the single-model report emits exactly five key/value lines (name,
object name, namespace label, table name, field count, then a blank
separator) and, exactly when metadata display is requested, three
additional metadata lines (uuid, source file, source line, then a blank
separator). -/
theorem show_model_report (m : MyModel) (b : Bool) :
    show_model_emitted m b =
      (["model name: " ++ m.model_name,
        "object name: " ++ m.object_name,
        "app label: " ++ m.app_label,
        "db table: " ++ m.db_table,
        "fields: " ++ toString m.fields.length] ++ [""]) ++
      (if b then
        ["uuid: " ++ m._meta_data.uuid,
         "source file: " ++ m._meta_data.code.source_file,
         "source line: " ++ toString m._meta_data.code.line_number] ++ [""]
       else []) ∧
    (show_model_emitted m b).length = if b then 10 else 6 := by
  cases b <;> simp [show_model_emitted, show_model_lines, show_meta_data_lines]

/-- C8: when the user-supplied focus argument matches neither a name nor a
UUID, both the enumerate and the get operation terminate with a fatal
not-found error whose message echoes the offending input, producing no
output for the operation. -/
theorem notfound_fatal (data : Structure) (idx : UuidIndexes) (b sm : Bool)
    (s : String) (h : get_model_by idx s = none) :
    run_enumerate data idx b (some s) = .error ("no match " ++ s ++ " in models") ∧
    run_get idx s sm = .error ("no match " ++ s ++ " in models") := by
  constructor
  · simp [run_enumerate, h]
  · simp [run_get, h]

/-- Witness for C8: the string `ghost` matches nothing in the empty index,
so both operations fail with the echoing message. -/
theorem notfound_fatal_witness :
    run_enumerate ⟨[], []⟩ UuidIndexes.emptyIdx false (some "ghost")
      = .error "no match ghost in models" ∧
    run_get UuidIndexes.emptyIdx "ghost" false = .error "no match ghost in models" :=
  notfound_fatal ⟨[], []⟩ UuidIndexes.emptyIdx false false "ghost" rfl

/-- C9: the core write helper's result is insensitive to the error results
of the underlying write and flush: for any two operation sets with the
same state effects but different success flags, `write` returns the same
sink state, and its type propagates no error to the caller. -/
theorem write_discards_errors {σ : Type} (ops ops' : WriterOps σ)
    (hw : ∀ s d, (ops.write_all s d).fst = (ops'.write_all s d).fst)
    (hf : ∀ s, (ops.flush s).fst = (ops'.flush s).fst)
    (sink : σ) (data : List Nat) :
    write ops sink data = write ops' sink data := by
  show (ops.flush (ops.write_all sink data).fst).fst
    = (ops'.flush (ops'.write_all sink data).fst).fst
  rw [hw, hf]

/-- Witness for C9: writing through an always-failing sink returns exactly
the state an always-succeeding sink returns. -/
theorem write_discards_errors_witness :
    write okOps 0 [1, 2, 3] = write failOps 0 [1, 2, 3] :=
  write_discards_errors okOps failOps (fun _ _ => rfl) (fun _ => rfl) 0 [1, 2, 3]

/-! ## Newline-freeness of statement bodies -/

theorem noNL_nodeBody (i l : String) :
    noNL (nodeBody i l) = (noNL i && noNL l) := by
  have p1 : noNL "  \"" = true := by decide
  have p2 : noNL "\" [label=\"" = true := by decide
  have p3 : noNL "\"];" = true := by decide
  simp [nodeBody, noNL_append, p1, p2, p3]

theorem noNL_edgeBody (s d l : String) :
    noNL (edgeBody s d l) = (noNL s && noNL d && noNL l) := by
  have p1 : noNL "  \"" = true := by decide
  have p2 : noNL "\" -> \"" = true := by decide
  have p3 : noNL "\" [label=\"" = true := by decide
  have p4 : noNL "\"];" = true := by decide
  simp [edgeBody, noNL_append, p1, p2, p3, p4]

theorem noNL_relationTypeDebug (rt : RelationType) :
    noNL (relationTypeDebug rt) = true := by
  cases rt <;> decide

/-- C3: when a focus is supplied, the renderer emits a node statement only
for the models whose UUID equals the focus, but still emits one edge
statement per relation of the store — edge emission is not filtered by
the focus. -/
theorem dump_focus_filters_nodes_not_edges (data : Structure)
    (indexes : UuidIndexes) (t out : String)
    (h : dump_er_dot data indexes (some t) = some out) :
    ∃ es, mapOpt (edge_line indexes) data.relations = some es ∧
      es.length = data.relations.length ∧
      out = "digraph ER \x7b\n" ++
        joinAll ((data.models.filter (fun m => t == uuidOf m)).map
          (fun m => nodeStmt (uuidOf m) m.object_name)) ++
        joinAll es ++ "\x7d\n" := by
  rw [dump_er_dot_eq] at h
  cases hm : mapOpt (edge_line indexes) data.relations with
  | none => rw [hm] at h; cases h
  | some es =>
    rw [hm] at h
    exact ⟨es, rfl, mapOpt_length _ _ _ hm, (Option.some_inj.mp h).symm⟩

/-- Witness for C3: focusing the scenario store on UUID `1` drops the node
for `B` but keeps the edge into `B`. -/
theorem dump_focus_filters_nodes_not_edges_witness :
    ∃ es, mapOpt (edge_line (UuidIndexes.new exStore)) exStore.relations = some es ∧
      es.length = exStore.relations.length ∧
      exDotFocus = "digraph ER \x7b\n" ++
        joinAll ((exStore.models.filter (fun m => "1" == uuidOf m)).map
          (fun m => nodeStmt (uuidOf m) m.object_name)) ++
        joinAll es ++ "\x7d\n" :=
  dump_focus_filters_nodes_not_edges exStore (UuidIndexes.new exStore) "1"
    exDotFocus rfl

/-- C5 counterexample: a store whose single model's UUID contains a
newline makes the renderer's one node statement span two lines — the
output has five lines (four newlines) although one statement plus header,
terminator and the trailing empty line would give four, and the output
cannot be written as header line, one newline-free statement line,
terminator line. -/
theorem dump_format_cex :
    dump_er_dot dirtyStore UuidIndexes.emptyIdx none = some dirtyOut ∧
    dirtyStore.models.length = 1 ∧
    dirtyStore.relations.length = 0 ∧
    dirtyOut.data.count '\n' = 4 ∧
    ¬ ∃ body : String, noNL body = true ∧
        dirtyOut = interNL ["digraph ER \x7b", body, "\x7d", ""] := by
  refine ⟨rfl, rfl, rfl, by decide, ?_⟩
  rintro ⟨body, hb, he⟩
  have c1 : ("digraph ER \x7b" : String).data.count '\n' = 0 := by decide
  have c2 : ("\x7d" : String).data.count '\n' = 0 := by decide
  have c3 : ("\n" : String).data.count '\n' = 1 := by decide
  have c4 : ("" : String).data.count '\n' = 0 := by decide
  have hc : (interNL ["digraph ER \x7b", body, "\x7d", ""]).data.count '\n' = 3 := by
    rw [interNL_cons_cons, interNL_cons_cons]
    show (("digraph ER \x7b" : String) ++ "\n" ++
      (body ++ "\n" ++ (("\x7d" : String) ++ "\n" ++ ""))).data.count '\n' = 3
    simp [count_nl_append, c1, c2, c3, c4, noNL_count_zero body hb]
  have h4 : dirtyOut.data.count '\n' = 4 := by decide
  rw [he, hc] at h4
  exact absurd h4 (by decide)

/-- C5 (amended): provided the renderer completes and every emitted
identifier and label is newline-free, the output is exactly the
newline-join of the header line, one body line per emitted statement, the
terminator line and a trailing empty segment, and every body line is
newline-free and has its identifiers enclosed in double quotes (it is a
`nodeBody` or an `edgeBody`). -/
theorem dump_format_lines (data : Structure) (indexes : UuidIndexes)
    (tm : Option String) (out : String)
    (hmodels : ∀ m ∈ data.models, noNL (uuidOf m) = true ∧ noNL m.object_name = true)
    (hrels : ∀ rel ∈ data.relations, noNL rel.target_model = true ∧
      ∀ u, indexes.get_model_from_field rel.src_field = some u → noNL u = true)
    (h : dump_er_dot data indexes tm = some out) :
    ∃ bodies : List String,
      out = interNL ("digraph ER \x7b" :: (bodies ++ ["\x7d", ""])) ∧
      ∀ b ∈ bodies, noNL b = true ∧
        ((∃ i l, b = nodeBody i l) ∨ (∃ s d l, b = edgeBody s d l)) := by
  rw [dump_er_dot_eq] at h
  cases hm : mapOpt (edge_line indexes) data.relations with
  | none => rw [hm] at h; cases h
  | some es =>
    rw [hm] at h
    have hout : out = "digraph ER \x7b\n" ++
        joinAll ((data.models.filter (keepNode tm)).map
          (fun m => nodeStmt (uuidOf m) m.object_name)) ++
        joinAll es ++ "\x7d\n" := (Option.some_inj.mp h).symm
    have hfun : (fun m : MyModel => nodeStmt (uuidOf m) m.object_name)
        = (fun m : MyModel => nodeBody (uuidOf m) m.object_name ++ "\n") :=
      funext fun m => nodeStmt_eq_body _ _
    have hnodes : (data.models.filter (keepNode tm)).map
          (fun m => nodeStmt (uuidOf m) m.object_name)
        = ((data.models.filter (keepNode tm)).map
            (fun m => nodeBody (uuidOf m) m.object_name)).map (fun b => b ++ "\n") := by
      rw [hfun]
      simp [List.map_map, Function.comp]
    have hedge : ∀ e ∈ es, ∃ b, e = b ++ "\n" ∧
        (noNL b = true ∧ (∃ s d l, b = edgeBody s d l)) := by
      intro e he
      obtain ⟨rel, hrel, hfe⟩ := mapOpt_mem _ _ _ hm e he
      unfold edge_line at hfe
      cases hu : indexes.get_model_from_field rel.src_field with
      | none => rw [hu] at hfe; cases hfe
      | some src =>
        rw [hu] at hfe
        have he' : e = edgeStmt src rel.target_model (relationTypeDebug rel.relation_type) :=
          (Option.some_inj.mp hfe).symm
        refine ⟨edgeBody src rel.target_model (relationTypeDebug rel.relation_type),
          by rw [he', edgeStmt_eq_body], ?_,
          src, rel.target_model, relationTypeDebug rel.relation_type, rfl⟩
        rw [noNL_edgeBody]
        simp [(hrels rel hrel).1, (hrels rel hrel).2 src hu, noNL_relationTypeDebug]
    obtain ⟨ebs, hes, hQ⟩ := stmts_to_bodies es hedge
    refine ⟨(data.models.filter (keepNode tm)).map
        (fun m => nodeBody (uuidOf m) m.object_name) ++ ebs, ?_, ?_⟩
    · rw [interNL_header, hout, hnodes, hes]
      rw [List.map_append, joinAll_append]
      rw [show ("digraph ER \x7b\n" : String) = "digraph ER \x7b" ++ "\n" from rfl]
      rw [show ("\x7d\n" : String) = "\x7d" ++ "\n" from rfl]
      simp [String.append_assoc]
    · intro b hb
      rcases List.mem_append.mp hb with hn | he
      · obtain ⟨m, hmf, hbm⟩ := List.mem_map.mp hn
        have hmem := List.mem_of_mem_filter hmf
        refine ⟨?_, Or.inl ⟨uuidOf m, m.object_name, hbm.symm⟩⟩
        rw [← hbm, noNL_nodeBody]
        simp [(hmodels m hmem).1, (hmodels m hmem).2]
      · exact ⟨(hQ b he).1, Or.inr (hQ b he).2⟩

/-- Witness for C5 (amended): the scenario store is newline-clean, and the
full render is the newline-join of the header, three newline-free quoted
statement bodies, the terminator, and the trailing empty segment. -/
theorem dump_format_lines_witness :
    ∃ bodies : List String,
      exDotFull = interNL ("digraph ER \x7b" :: (bodies ++ ["\x7d", ""])) ∧
      ∀ b ∈ bodies, noNL b = true ∧
        ((∃ i l, b = nodeBody i l) ∨ (∃ s d l, b = edgeBody s d l)) :=
  dump_format_lines exStore (UuidIndexes.new exStore) none exDotFull
    (by decide)
    (by
      intro rel hrel
      have hr : rel = exRel := List.mem_singleton.mp hrel
      subst hr
      refine ⟨by decide, ?_⟩
      intro u hu
      have h1 : ("1" : String) = u := Option.some_inj.mp hu
      rw [← h1]
      decide)
    rfl

end Dmdr
